import Mathlib

/-!
Verification of the NTag neutron-capture candidate search against its
natural-language specification.

The development shallowly embeds the hit-clustering pipeline of
`NTagEventInfo` (src/src/NTagTMVAVariables.cc) and the per-candidate
bookkeeping of `NTagTMVAVariables`:

* hit times and charges (C++ `float`) are modelled as `ℚ`, PMT cable ids as
  `ℤ`, counts as `ℕ`;
* `std::vector` becomes `List`, `std::map` keyed by strings becomes an
  association list `List (String × _)`;
* the stateful scan of `SearchCaptureCandidates` becomes a fold of an
  explicit step function over hit indices;
* the helper calculators declared in include/NTagCalculator.hh whose
  implementation file is not part of the sources at hand are modelled from
  their header documentation and the specification (marked
  `Modelled from the spec:`), and the external ROOT routine `TMath::Sort`
  is modelled from its documented contract (a stable ascending index sort).
-/

attribute [local semireducible] Rat.mul Rat.inv Rat.add Rat.sub

set_option maxRecDepth 10000

namespace NTag

/-! ## Calculator helpers (include/NTagCalculator.hh)

The implementation file of these helpers is not among the sources; they are
modelled from the header documentation and spec section 4.2. -/

/-- Modelled from the spec: `GetVectorFromStartIndex` (declared in
include/NTagCalculator.hh, implementation missing from the sources) slices a
sorted time vector starting from index `startIndex` within `tWidth` ns, i.e.
the hits in the forward window `[t_start, t_start + tWidth)`. -/
def GetVectorFromStartIndex (sortedT : List ℚ) (startIndex : ℕ) (tWidth : ℚ) : List ℚ :=
  (sortedT.drop startIndex).takeWhile (fun t => decide (t < sortedT.getD startIndex 0 + tWidth))

/-- Modelled from the spec: `GetNhitsFromStartIndex` counts the hits within
`tWidth` ns starting from index `startIndex`; per spec section 4.2 step 7 it
agrees with the window slice by construction. -/
def GetNhitsFromStartIndex (sortedT : List ℚ) (startIndex : ℕ) (tWidth : ℚ) : ℕ :=
  (GetVectorFromStartIndex sortedT startIndex tWidth).length

/-- Modelled from the spec: `GetNhitsFromCenterTime` counts the hits within
a window of width `tWidth` ns centered at `centerTime`, i.e. in
`[centerTime - tWidth/2, centerTime + tWidth/2)`. -/
def GetNhitsFromCenterTime (T : List ℚ) (centerTime tWidth : ℚ) : ℕ :=
  T.countP (fun t => decide (centerTime - tWidth / 2 ≤ t ∧ t < centerTime + tWidth / 2))

/-- `SliceVector` from include/NTagCalculator.hh: slice `nElements` elements
starting at `startIndex`; when an index order is supplied the slice is
`vec[indexOrder[i]]` instead of `vec[i]`. -/
def SliceVector {α : Type} [Inhabited α] (vec : List α) (startIndex nElements : ℕ)
    (indexOrder : Option (List ℕ)) : List α :=
  (List.range nElements).map (fun k =>
    match indexOrder with
    | some ord => vec.getD (ord.getD (startIndex + k) 0) default
    | none => vec.getD (startIndex + k) default)

/-! ## Stable index sort (external `TMath::Sort`)

`SortToFSubtractedTQ` and `GetToFSubtracted` sort through the external ROOT
routine `TMath::Sort(n, a, index, down=false)`, documented as a stable
(`std::stable_sort`) ascending index sort.  A stable ascending sort of the
index list `0, 1, ..., n-1` by hit value is exactly the sort by the
lexicographic order on (value, original index), which is how it is modelled
here. -/

/-- Lexicographic comparison of hit indices: first by ToF-corrected time,
ties broken by the original buffer position.  This is the order in which a
stable ascending value sort emits the indices. -/
def hitLE (T : List ℚ) (i j : ℕ) : Prop :=
  T.getD i 0 < T.getD j 0 ∨ (T.getD i 0 = T.getD j 0 ∧ i ≤ j)

instance (T : List ℚ) : DecidableRel (hitLE T) := fun i j => by
  unfold hitLE
  infer_instance

/-- Modelled from the ROOT `TMath::Sort` contract: the permutation
`sortedIndex` such that `sortedIndex[s]` is the original position of the
hit at sorted position `s`, stable and ascending in corrected time. -/
def sortedIndexList (T : List ℚ) : List ℕ :=
  List.insertionSort (hitLE T) (List.range T.length)

instance (T : List ℚ) : IsTotal ℕ (hitLE T) := by
  constructor
  intro i j
  rcases lt_trichotomy (T.getD i 0) (T.getD j 0) with h | h | h
  · exact Or.inl (Or.inl h)
  · rcases Nat.le_total i j with hij | hij
    · exact Or.inl (Or.inr ⟨h, hij⟩)
    · exact Or.inr (Or.inr ⟨h.symm, hij⟩)
  · exact Or.inr (Or.inl h)

instance (T : List ℚ) : IsTrans ℕ (hitLE T) := by
  constructor
  intro i j k hij hjk
  rcases hij with h1 | ⟨h1, h1'⟩
  · rcases hjk with h2 | ⟨h2, _⟩
    · exact Or.inl (h1.trans h2)
    · exact Or.inl (h2 ▸ h1)
  · rcases hjk with h2 | ⟨h2, h2'⟩
    · exact Or.inl (h1 ▸ h2)
    · exact Or.inr ⟨h1.trans h2, h1'.trans h2'⟩

/-- `NTagEventInfo::SortToFSubtractedTQ`: the sorted ToF-subtracted time
series, `vSortedT_ToF[s] = vUnsortedT_ToF[sortedIndex[s]]`. -/
def vSortedT_ToF (vUnsortedT_ToF : List ℚ) : List ℚ :=
  (sortedIndexList vUnsortedT_ToF).map (fun i => vUnsortedT_ToF.getD i 0)

/-- `NTagEventInfo::SortToFSubtractedTQ`: the sorted charge series. -/
def vSortedQ (vUnsortedT_ToF vQISKZ : List ℚ) : List ℚ :=
  (sortedIndexList vUnsortedT_ToF).map (fun i => vQISKZ.getD i 0)

/-- `NTagEventInfo::SortToFSubtractedTQ`: the sorted PMT-id series. -/
def vSortedPMTID (vUnsortedT_ToF : List ℚ) (vCABIZ : List ℤ) : List ℤ :=
  (sortedIndexList vUnsortedT_ToF).map (fun i => vCABIZ.getD i 0)

/-- `NTagEventInfo::SortToFSubtractedTQ`: the `reverseIndex` member, filled
imperatively by `reverseIndex[sortedIndex[iHit]] = iHit` over a vector
resized (zero-initialized) to `nqiskz`. -/
def reverseIndexOf (vUnsortedT_ToF : List ℚ) : List ℕ :=
  (List.range vUnsortedT_ToF.length).foldl
    (fun r iHit => r.set ((sortedIndexList vUnsortedT_ToF).getD iHit 0) iHit)
    (List.replicate vUnsortedT_ToF.length 0)

/-! ## ToF subtraction (`NTagEventInfo::GetToF`, `GetToFSubtracted`)

Detector geometry (`geopmt_.xyzpm`) and the Euclidean distance helper
`GetDistance` (NTagCalculator implementation missing from the sources) are
external inputs; they are taken as parameters of the embedding. -/

/-- Position vectors are rational triples. -/
abbrev Vec3 : Type := ℚ × ℚ × ℚ

/-- `NTagConstant::C_WATER = 21.5833` cm/ns, the speed of light in water. -/
def C_WATER : ℚ := 215833 / 10000

/-- `NTagEventInfo::GetToF`: time of flight from a vertex to PMT `pmtID`,
`GetDistance(PMTXYZ[pmtID], vertex) / C_WATER`, with the geometry array and
the distance function supplied externally. -/
def GetToF (GetDistance : Vec3 → Vec3 → ℚ) (PMTXYZ : ℤ → Vec3)
    (vertex : Vec3) (pmtID : ℤ) : ℚ :=
  GetDistance (PMTXYZ pmtID) vertex / C_WATER

/-- `NTagEventInfo::GetToFSubtracted`: per hit, subtract the ToF from the
vertex to PMT `PMTID[i]` (the geometry array is indexed by `PMTID[i] - 1`);
with `doSort` the result is additionally sorted ascending (stably). -/
def GetToFSubtracted (GetDistance : Vec3 → Vec3 → ℚ) (PMTXYZ : ℤ → Vec3)
    (T : List ℚ) (PMTID : List ℤ) (vertex : Vec3) (doSort : Bool) : List ℚ :=
  let t_ToF := (List.range T.length).map (fun iHit =>
    T.getD iHit 0 - GetToF GetDistance PMTXYZ vertex (PMTID.getD iHit 0 - 1))
  if doSort then (sortedIndexList t_ToF).map (fun i => t_ToF.getD i 0)
  else t_ToF

/-! ## The candidate search (`NTagEventInfo::SearchCaptureCandidates`) -/

/-- The tag conditions consumed by `SearchCaptureCandidates` (defaults in
NTagEventInfo.hh: `N10TH = 7`, `N10MX = 50`, `N200MX = 200`, `T0TH = 5.`,
`TMINPEAKSEP = 50.`). -/
structure SearchParams where
  N10TH : ℕ
  N10MX : ℕ
  N200MX : ℕ
  T0TH : ℚ
  TMINPEAKSEP : ℚ
deriving DecidableEq

/-- The `NTagDefault` values of the search parameters. -/
def defaultParams : SearchParams :=
  { N10TH := 7, N10MX := 50, N200MX := 200, T0TH := 5, TMINPEAKSEP := 50 }

/-- The mutable state of the scan in `SearchCaptureCandidates` together with
the event members it writes: the tracked previous anchor
(`iHitPrevious`, `N10Previous`, `N200Previous`, `t0Previous`), the running
maximum N200 (`maxN200`, `maxN200Time`), `firstHitTime_ToF`, and the list of
hit indices passed to `SavePeakFromHit`, in emission order. -/
structure SearchState where
  iHitPrevious : ℕ
  N10Previous : ℕ
  N200Previous : ℕ
  t0Previous : ℚ
  maxN200 : ℕ
  maxN200Time : ℚ
  firstHitTime : ℚ
  candidates : List ℕ
deriving DecidableEq

/-- The scan state at function entry (locals initialized at the top of
`SearchCaptureCandidates`; `maxN200`, `maxN200Time` and `firstHitTime_ToF`
carry their values from `NTagEventInfo::Clear`). -/
def initialSearchState : SearchState :=
  { iHitPrevious := 0, N10Previous := 0, N200Previous := 0, t0Previous := -1,
    maxN200 := 0, maxN200Time := -9999, firstHitTime := -9999, candidates := [] }

/-- The `firstHitTime_ToF` recording at the top of the loop body (only ever
fires when the member still holds the value 0). -/
def stepFirstHit (T : List ℚ) (s : SearchState) (iHit : ℕ) : SearchState :=
  if s.firstHitTime = 0 then { s with firstHitTime := T.getD iHit 0 } else s

/-- The maximum-N200 tracking of the loop body. -/
def stepMaxN200 (p : SearchParams) (t0New : ℚ) (N200New : ℕ) (s : SearchState) :
    SearchState :=
  if t0New * (1 / 1000) > p.T0TH ∧ N200New > s.maxN200 then
    { s with maxN200 := N200New, maxN200Time := t0New }
  else s

/-- The emission rule of the loop body: when the current peak time is more
than `TMINPEAKSEP` past the tracked previous anchor, save the previous
anchor (provided its `N200` is below `N200MX` and its time is past the
`T0TH` cut) and reset the tracked cluster count. -/
def stepSavePrevious (p : SearchParams) (t0New : ℚ) (s : SearchState) : SearchState :=
  if t0New - s.t0Previous > p.TMINPEAKSEP then
    { s with
      candidates :=
        if s.N200Previous < p.N200MX ∧ s.t0Previous * (1 / 1000) > p.T0TH then
          s.candidates ++ [s.iHitPrevious]
        else s.candidates,
      N10Previous := 0 }
  else s

/-- The anchor update at the bottom of the loop body: unless the current
cluster count fails to exceed the tracked previous one, the current hit
becomes the tracked anchor. -/
def stepAnchorUpdate (p : SearchParams) (T : List ℚ) (iHit : ℕ) (s : SearchState) :
    SearchState :=
  if GetNhitsFromStartIndex T iHit 10 ≤ s.N10Previous then s
  else { s with iHitPrevious := iHit, t0Previous := T.getD iHit 0,
                N10Previous := GetNhitsFromStartIndex T iHit 10,
                N200Previous := GetNhitsFromCenterTime T (T.getD iHit 0 + 5) 200 }

/-- The body of one loop iteration of `SearchCaptureCandidates` after the
early-time cut has been passed: record the first hit time, compute `N10`,
apply the multiplicity test, track the maximum `N200`, emit the previous
anchor when the peak separation is exceeded, and update the tracked anchor
when the current cluster is strictly larger. -/
def searchAfterTimeCut (p : SearchParams) (T : List ℚ) (s : SearchState) (iHit : ℕ) :
    SearchState :=
  if GetNhitsFromStartIndex T iHit 10 < p.N10TH ∨
      p.N10MX + 1 ≤ GetNhitsFromStartIndex T iHit 10 then
    stepFirstHit T s iHit
  else
    stepAnchorUpdate p T iHit
      (stepSavePrevious p (T.getD iHit 0)
        (stepMaxN200 p (T.getD iHit 0)
          (GetNhitsFromCenterTime T (T.getD iHit 0 + 5) 200)
          (stepFirstHit T s iHit)))

/-- One loop iteration of `SearchCaptureCandidates`: a hit whose corrected
time times `1.e-3` is below `T0TH` is skipped outright. -/
def searchStep (p : SearchParams) (T : List ℚ) (s : SearchState) (iHit : ℕ) : SearchState :=
  if T.getD iHit 0 * (1 / 1000) < p.T0TH then s
  else searchAfterTimeCut p T s iHit

/-- The scan loop of `SearchCaptureCandidates` over the first `n` hits. -/
def searchScanAux (p : SearchParams) (T : List ℚ) (n : ℕ) : SearchState :=
  (List.range n).foldl (searchStep p T) initialSearchState

/-- The full scan loop of `SearchCaptureCandidates` (before the final save). -/
def searchScan (p : SearchParams) (T : List ℚ) : SearchState :=
  searchScanAux p T T.length

/-- `SearchCaptureCandidates`: after the scan the last tracked anchor is
saved as well whenever its cluster count still meets `N10TH`. -/
def searchCaptureCandidates (p : SearchParams) (T : List ℚ) : SearchState :=
  let s := searchScan p T
  if p.N10TH ≤ s.N10Previous then { s with candidates := s.candidates ++ [s.iHitPrevious] }
  else s

/-! ## Raw hit collection (`NTagEventInfo::AppendRawHitInfo`) -/

/-- One entry of the `sktqz_` common block: hit time, charge, cable id and
hit flag (bit 1 = in-gate). -/
structure RawHit where
  t : ℚ
  q : ℚ
  cab : ℤ
  flag : ℕ
deriving DecidableEq

/-- The external inputs of `AppendRawHitInfo`: the `MAXPM` constant of the
SK library headers, the deadtime width `TRBNWIDTH` (in microseconds; its
`NTagDefault` value lives outside the sources at hand) and the optional
signal-hit arrays `vSIGT`/`vSIGI`. -/
structure RawHitParams where
  MAXPM : ℤ
  TRBNWIDTH : ℚ
  sig : Option (List ℚ × List ℤ)

/-- The persistent event state touched by `AppendRawHitInfo`: the raw hit
triplet `vTISKZ`/`vQISKZ`/`vCABIZ`, the signal flags `vISIGZ`, the per-PMT
last-appended-hit-time array `vPMTHitTime` (zero-filled by
`NTagEventInfo::Clear`) and the hit counters. -/
structure RawHitState where
  vTISKZ : List ℚ
  vQISKZ : List ℚ
  vCABIZ : List ℤ
  vISIGZ : List ℤ
  vPMTHitTime : ℤ → ℚ
  nTotalHits : ℕ
  nTotalSigHits : ℕ
  nFoundSigHits : ℕ
  nRemovedHits : ℕ

/-- The signal-matching block at the end of the append branch of
`AppendRawHitInfo`: when signal TQ arrays are present, the hit is flagged
as signal iff some signal hit matches in time (within `1e-3` ns) and PMT id. -/
def appendSignalFlag (P : RawHitParams) (hitTime : ℚ) (cab : ℤ) (s : RawHitState) :
    RawHitState :=
  match P.sig with
  | some (sigT, sigI) =>
    let s := { s with nTotalSigHits := sigT.length }
    let isSignal := (List.range sigT.length).any (fun iSigHit =>
      decide (|hitTime - sigT.getD iSigHit 0| < 1 / 1000 ∧ cab = sigI.getD iSigHit 0))
    if isSignal then { s with vISIGZ := s.vISIGZ ++ [1], nFoundSigHits := s.nFoundSigHits + 1 }
    else { s with vISIGZ := s.vISIGZ ++ [0] }
  | none => s

/-- The coincidence-offset update at the top of the hit loop of
`AppendRawHitInfo`: while no coincidence has been found, a hit matching the
last stored charge and PMT id fixes the time offset. -/
def adjustedOffset (tLast qLast : ℚ) (pmtLast : ℤ) (acc2 : ℚ × Bool) (h : RawHit) :
    ℚ × Bool :=
  if ¬acc2.2 ∧ h.q = qLast ∧ h.cab = pmtLast then (tLast - h.t, true) else acc2

/-- The in-gate branch of the hit loop of `AppendRawHitInfo`: either drop
the hit (when within the deadtime width of `vPMTHitTime` for its PMT)
counting it in `nRemovedHits`, or append it, record its time in
`vPMTHitTime` and set its signal flag. -/
def appendHitBranch (P : RawHitParams) (hitTime : ℚ) (h : RawHit) (s : RawHitState) :
    RawHitState :=
  if |hitTime - s.vPMTHitTime h.cab| < P.TRBNWIDTH * 1000 then
    { s with nRemovedHits := s.nRemovedHits + 1 }
  else
    appendSignalFlag P hitTime h.cab
      { s with
        vTISKZ := s.vTISKZ ++ [hitTime],
        vQISKZ := s.vQISKZ ++ [h.q],
        vCABIZ := s.vCABIZ ++ [h.cab],
        vPMTHitTime := Function.update s.vPMTHitTime h.cab hitTime }

/-- One iteration of the hit loop of `AppendRawHitInfo`: update the
coincidence offset, then process an in-gate hit with cable id at most
`MAXPM` through the drop-or-append branch (counting it in `nTotalHits`),
and ignore all other hits. -/
def appendStep (P : RawHitParams) (tLast qLast : ℚ) (pmtLast : ℤ)
    (acc : RawHitState × ℚ × Bool) (h : RawHit) : RawHitState × ℚ × Bool :=
  let tOffsetFound := adjustedOffset tLast qLast pmtLast acc.2 h
  if h.flag.testBit 1 ∧ h.cab ≤ P.MAXPM then
    (appendHitBranch P (h.t + tOffsetFound.1) h
      { acc.1 with nTotalHits := acc.1.nTotalHits + 1 },
     tOffsetFound)
  else (acc.1, tOffsetFound)

/-- `NTagEventInfo::AppendRawHitInfo`: fold the hit loop over the `sktqz_`
entries; the coincidence search starts already satisfied when the raw hit
vector is empty, and otherwise matches against the last stored hit. -/
def AppendRawHitInfo (P : RawHitParams) (s : RawHitState) (hits : List RawHit) :
    RawHitState :=
  let tLast := s.vTISKZ.getLast?.getD 0
  let qLast := s.vQISKZ.getLast?.getD 0
  let pmtLast := s.vCABIZ.getLast?.getD 0
  (hits.foldl (appendStep P tLast qLast pmtLast) (s, 0, s.vTISKZ.isEmpty)).1

/-- The stored hit times on one PMT, in append order. -/
def hitTimesOnPMT (s : RawHitState) (pmtId : ℤ) : List ℚ :=
  ((s.vTISKZ.zip s.vCABIZ).filter (fun x => decide (x.2 = pmtId))).map Prod.fst

/-- The deadtime invariant of the raw hit buffer: the time and cable lists
are aligned, consecutive stored hits on any one PMT are at least `W` apart,
and `vPMTHitTime` holds the time of the last stored hit of each PMT that
has one. -/
def deadtimeInv (W : ℚ) (s : RawHitState) : Prop :=
  s.vTISKZ.length = s.vCABIZ.length ∧
  ∀ pmtId : ℤ,
    List.Chain' (fun a b => W ≤ |b - a|) (hitTimesOnPMT s pmtId) ∧
    ∀ tl ∈ (hitTimesOnPMT s pmtId).getLast?, s.vPMTHitTime pmtId = tl

/-! ## Per-candidate variable accumulation
(`NTagEventInfo::InitializeCandidateVariableVectors`,
`ExtractCandidateVariables`, `SetCandidateVariables`) -/

/-- The two per-candidate feature dictionaries (`iVarMap`, `fVarMap` of
`NTagCandidate`). -/
structure NTagCandidateVars where
  iVarMap : List (String × ℤ)
  fVarMap : List (String × ℚ)
deriving DecidableEq

/-- The event-level columnar stores `iCandidateVarMap`/`fCandidateVarMap`
(maps from feature name to a vector of per-candidate values; in the source
the mapped values are heap-allocated vector pointers). -/
structure CandidateVarStore where
  iCandidateVarMap : List (String × List ℤ)
  fCandidateVarMap : List (String × List ℚ)
deriving DecidableEq

/-- `NTagEventInfo::InitializeCandidateVariableVectors`: allocate one empty
event-level vector per feature name of the first candidate. -/
def InitializeCandidateVariableVectors (c0 : NTagCandidateVars) : CandidateVarStore :=
  { iCandidateVarMap := c0.iVarMap.map (fun q => (q.1, ([] : List ℤ)))
    fCandidateVarMap := c0.fVarMap.map (fun q => (q.1, ([] : List ℚ))) }

/-- `candidateVarMap[name]->push_back(value)`: when the name has an
allocated vector the value is appended to it; otherwise the `std::map`
subscript default-inserts a null vector pointer and the `push_back` call
dereferences it (undefined behavior), modelled as a hard error. -/
def pushVar {α : Type} (m : List (String × List α)) (k : String) (v : α) :
    Except String (List (String × List α)) :=
  if (m.lookup k).isSome then
    Except.ok (m.map (fun q => if q.1 = k then (q.1, q.2 ++ [v]) else q))
  else Except.error "push_back on a default-inserted null vector pointer"

/-- The body of `NTagEventInfo::ExtractCandidateVariables` for one
candidate: push every entry of its integer and float dictionaries onto the
correspondingly named event-level vector. -/
def extractOneCandidate (st : CandidateVarStore) (c : NTagCandidateVars) :
    Except String CandidateVarStore := do
  let im ← c.iVarMap.foldlM (fun m q => pushVar m q.1 q.2) st.iCandidateVarMap
  let fm ← c.fVarMap.foldlM (fun m q => pushVar m q.1 q.2) st.fCandidateVarMap
  pure { iCandidateVarMap := im, fCandidateVarMap := fm }

/-- `NTagEventInfo::ExtractCandidateVariables`: iterate over all candidates
of the event. -/
def ExtractCandidateVariables (st : CandidateVarStore) (cands : List NTagCandidateVars) :
    Except String CandidateVarStore :=
  cands.foldlM extractOneCandidate st

/-- `NTagEventInfo::SetCandidateVariables`: when the event has candidates,
lazily initialize the store from the first candidate and then extract. -/
def SetCandidateVariables (candidateVariablesInitialized : Bool) (st : CandidateVarStore)
    (cands : List NTagCandidateVars) : Except String CandidateVarStore :=
  if 0 < cands.length then
    let st := if ¬candidateVariablesInitialized
              then InitializeCandidateVariableVectors (cands.getD 0 ⟨[], []⟩)
              else st
    ExtractCandidateVariables st cands
  else Except.ok st

/-! ## Reader variables and output branches (`NTagTMVAVariables`) -/

/-- `NTagTMVAVariables::SetVariablesForCaptureCandidate`: refill the scalar
maps from the event vectors at index `iCandidate`.  Every integer-map name
is copied into the float scalar map from the integer scalar value; names
only present in the float vectors are taken from there.  The float scalar
map is what `AddVariablesToReader` registers with the classifier reader. -/
def SetVariablesForCaptureCandidate (iEventVectorMap : List (String × List ℤ))
    (fEventVectorMap : List (String × List ℚ)) (iCandidate : ℕ) :
    List (String × ℤ) × List (String × ℚ) :=
  let iVariableMap := iEventVectorMap.map (fun q => (q.1, q.2.getD iCandidate 0))
  let fVariableMap := fEventVectorMap.map (fun q =>
    (q.1, match iVariableMap.lookup q.1 with
          | some z => (z : ℚ)
          | none => q.2.getD iCandidate 0))
  (iVariableMap, fVariableMap)

/-- `NTagTMVAVariables::MakeBranchesToTree`: one branch per integer event
vector, plus one branch per float event vector whose name is not a key of
the integer scalar map (`iVariableMap`). -/
def MakeBranchesToTree (iVariableKeys : List String)
    (iEventVectorMap : List (String × List ℤ)) (fEventVectorMap : List (String × List ℚ)) :
    List (String × (List ℤ ⊕ List ℚ)) :=
  iEventVectorMap.map (fun q => (q.1, Sum.inl q.2)) ++
  (fEventVectorMap.filter (fun q => !(iVariableKeys.contains q.1))).map
    (fun q => (q.1, Sum.inr q.2))

/-! ## Concrete inputs used by counterexamples and witnesses -/

/-- The two-burst scenario of the spec: 20 hits at sorted corrected times
0..9 and 100..109 ns. -/
def input20 : List ℚ :=
  [0, 1, 2, 3, 4, 5, 6, 7, 8, 9, 100, 101, 102, 103, 104, 105, 106, 107, 108, 109]

/-- A single 10-hit burst at 10..19 ns (all corrected times at or above
5 ns). -/
def inputTenNs : List ℚ := [10, 11, 12, 13, 14, 15, 16, 17, 18, 19]

/-- The default parameters with the early-time cut disabled. -/
def paramsNoTimeCut : SearchParams := { defaultParams with T0TH := -1 }

/-- An unsorted ToF-corrected time series realizing a 3-cycle sort
permutation. -/
def unsorted3 : List ℚ := [30, 10, 20]

/-! ## C1 -/

/-- C1 counterexample: the claim says every hit with corrected time at or
above 5 ns proceeds to the cluster-count test.  On a burst of ten hits at
10..19 ns under the default parameters, the first hit has corrected time
10 ns (at or above 5 ns) and its 10 ns window holds 10 hits, inside
`[N10TH, N10MX]`, yet the scan skips it at the time cut
(`10 * 1e-3 < T0TH = 5`) and the whole event yields zero candidates. -/
theorem time_cut_skips_hit_at_ten_ns :
    (5 : ℚ) ≤ inputTenNs.getD 0 0 ∧
    inputTenNs.getD 0 0 * (1 / 1000) < defaultParams.T0TH ∧
    searchStep defaultParams inputTenNs initialSearchState 0 = initialSearchState ∧
    defaultParams.N10TH ≤ GetNhitsFromStartIndex inputTenNs 0 10 ∧
    GetNhitsFromStartIndex inputTenNs 0 10 ≤ defaultParams.N10MX ∧
    (searchCaptureCandidates defaultParams inputTenNs).candidates = [] := by
  decide

/-- C1 (amended): a sorted hit is skipped by `SearchCaptureCandidates`
exactly when its corrected time (ns) is below `T0TH * 1000` — the code
compares `t * 1e-3` against `T0TH`, so the default `T0TH = 5` is an
effective 5000 ns (5 microsecond) cutoff, not 5 ns; every hit at or above
the cutoff proceeds to the cluster-count test. -/
theorem searchStep_time_cut_units (p : SearchParams) (T : List ℚ) (s : SearchState)
    (iHit : ℕ) :
    (T.getD iHit 0 < p.T0TH * 1000 → searchStep p T s iHit = s) ∧
    (p.T0TH * 1000 ≤ T.getD iHit 0 →
      searchStep p T s iHit = searchAfterTimeCut p T s iHit) := by
  have hiff : T.getD iHit 0 * (1 / 1000) < p.T0TH ↔ T.getD iHit 0 < p.T0TH * 1000 := by
    rw [mul_one_div, div_lt_iff₀ (by norm_num : (0 : ℚ) < 1000)]
  constructor
  · intro h
    unfold searchStep
    rw [if_pos (hiff.mpr h)]
  · intro h
    unfold searchStep
    rw [if_neg (fun hc => absurd (hiff.mp hc) (not_lt.mpr h))]

/-- C1 witness: the amended theorem applied at the first hit of the
10..19 ns burst under the default parameters. -/
theorem searchStep_time_cut_units_witness :
    inputTenNs.getD 0 0 < defaultParams.T0TH * 1000 ∧
    searchStep defaultParams inputTenNs initialSearchState 0 = initialSearchState :=
  ⟨by decide,
   (searchStep_time_cut_units defaultParams inputTenNs initialSearchState 0).1 (by decide)⟩

/-! ## C2 -/

/-- C2: `SortToFSubtractedTQ` fills `reverseIndex[sortedIndex[i]] = i`,
mapping original positions to sorted positions, while its own declaration
comment (an inverse map from indices of `vSortedT_ToF` to indices of
`vTISKZ`) and the use in `SavePeakFromHit` require the opposite direction.
On the times `[30, 10, 20]` the sort permutation is a 3-cycle: the stored
`reverseIndex` is `[2, 0, 1]`, the claimed round trip
`vUnsortedT_ToF[reverseIndex[0]] = vSortedT_ToF[0]` reads `20 ≠ 10`, and the
`SavePeakFromHit` slice of the raw times through `reverseIndex` for the
1-hit window anchored at sorted position 0 returns `[20]` although the hit
in that window is original hit 1 with raw time 10. -/
theorem reverseIndex_round_trip_fails_on_three_hits :
    reverseIndexOf unsorted3 = [2, 0, 1] ∧
    vSortedT_ToF unsorted3 = [10, 20, 30] ∧
    unsorted3.getD ((reverseIndexOf unsorted3).getD 0 0) 0 = 20 ∧
    (vSortedT_ToF unsorted3).getD 0 0 = 10 ∧
    unsorted3.getD ((reverseIndexOf unsorted3).getD 0 0) 0 ≠
      (vSortedT_ToF unsorted3).getD 0 0 ∧
    GetNhitsFromStartIndex (vSortedT_ToF unsorted3) 0 10 = 1 ∧
    SliceVector unsorted3 0 1 (some (reverseIndexOf unsorted3)) = [20] ∧
    unsorted3.getD ((sortedIndexList unsorted3).getD 0 0) 0 = 10 := by
  decide

/-! ## C3 -/

/-- C3 counterexample: on the two-burst scenario input the claim expects
exactly 2 candidates, but under the stated parameters (which leave `T0TH`
at its default 5, an effective 5000 ns cutoff) every hit is below the time
cut and `SearchCaptureCandidates` emits no candidate at all. -/
theorem two_burst_scenario_fails_under_defaults :
    (searchCaptureCandidates defaultParams input20).candidates = [] ∧
    (searchCaptureCandidates defaultParams input20).candidates.length ≠ 2 := by
  decide

/-- C3 (amended): with the early-time cut disabled (`T0TH` negative, e.g.
-1) the two-burst scenario produces exactly 2 candidates, anchored at the
hits with corrected times 0 and 100 ns, each containing 10 hits. -/
theorem two_burst_scenario_with_time_cut_disabled :
    (searchCaptureCandidates paramsNoTimeCut input20).candidates = [0, 10] ∧
    input20.getD 0 0 = 0 ∧
    input20.getD 10 0 = 100 ∧
    (GetVectorFromStartIndex input20 0 10).length = 10 ∧
    (GetVectorFromStartIndex input20 10 10).length = 10 := by
  decide

/-! ## C5 -/

/-- C5: `GetToFSubtracted` with `doSort = false` returns, in input order, a
vector of the input's length whose `i`-th element is the raw time minus the
time of flight `GetDistance(PMTXYZ[PMTID[i] - 1], vertex) / C_WATER`; the
geometry array and distance function are the external collaborators.  The
embedding is pure, so the input vectors are not mutated. -/
theorem GetToFSubtracted_unsorted_spec (GetDistance : Vec3 → Vec3 → ℚ)
    (PMTXYZ : ℤ → Vec3) (T : List ℚ) (PMTID : List ℤ) (vertex : Vec3)
    (hlen : T.length = PMTID.length) (i : ℕ) (hi : i < T.length) :
    (GetToFSubtracted GetDistance PMTXYZ T PMTID vertex false).length = T.length ∧
    (GetToFSubtracted GetDistance PMTXYZ T PMTID vertex false).getD i 0 =
      T.getD i 0 - GetDistance (PMTXYZ (PMTID.getD i 0 - 1)) vertex / C_WATER := by
  constructor
  · simp [GetToFSubtracted]
  · simp [GetToFSubtracted, GetToF, List.getD_eq_getElem?_getD, List.getElem?_map,
      List.getElem?_range hi]

/-- C5 witness: the theorem applied to a concrete 2-hit input with a
concrete distance function and geometry. -/
theorem GetToFSubtracted_unsorted_spec_witness :
    (([(100 : ℚ), 200].length = ([3, 1] : List ℤ).length ∧ 1 < [(100 : ℚ), 200].length) ∧
      (GetToFSubtracted (fun a b => a.1 + b.1) (fun z => ((z : ℚ), 0, 0))
          [100, 200] [3, 1] (7, 0, 0) false).length = [(100 : ℚ), 200].length ∧
      (GetToFSubtracted (fun a b => a.1 + b.1) (fun z => ((z : ℚ), 0, 0))
          [100, 200] [3, 1] (7, 0, 0) false).getD 1 0 =
        [(100 : ℚ), 200].getD 1 0 -
          (fun (a b : Vec3) => a.1 + b.1)
            ((fun z => ((z : ℚ), 0, 0)) (([3, 1] : List ℤ).getD 1 0 - 1)) (7, 0, 0) /
            C_WATER) :=
  ⟨⟨by decide, by decide⟩,
   GetToFSubtracted_unsorted_spec (fun a b => a.1 + b.1) (fun z => ((z : ℚ), 0, 0))
     [100, 200] [3, 1] (7, 0, 0) (by decide) 1 (by decide)⟩

/-! ## C6 -/

/-- C6: the ascending sort on ToF-corrected times is stable: two hits with
equal corrected time keep their original relative order in the sorted
series — the earlier original index occupies the earlier sorted position.
Both `SortToFSubtractedTQ` and `GetToFSubtracted` with `doSort = true`
order their output by this permutation. -/
theorem sortedIndexList_stable (T : List ℚ) (i j : ℕ) (hij : i < j) (hj : j < T.length)
    (heq : T.getD i 0 = T.getD j 0) :
    (sortedIndexList T).indexOf i < (sortedIndexList T).indexOf j := by
  have hmemi : i ∈ sortedIndexList T := by
    rw [sortedIndexList, List.mem_insertionSort]
    exact List.mem_range.mpr (hij.trans hj)
  have hmemj : j ∈ sortedIndexList T := by
    rw [sortedIndexList, List.mem_insertionSort]
    exact List.mem_range.mpr hj
  have hsi : (sortedIndexList T).indexOf i < (sortedIndexList T).length :=
    List.indexOf_lt_length.mpr hmemi
  have hsj : (sortedIndexList T).indexOf j < (sortedIndexList T).length :=
    List.indexOf_lt_length.mpr hmemj
  have hgi : (sortedIndexList T)[(sortedIndexList T).indexOf i] = i :=
    List.getElem_indexOf hsi
  have hgj : (sortedIndexList T)[(sortedIndexList T).indexOf j] = j :=
    List.getElem_indexOf hsj
  have hsorted : List.Sorted (hitLE T) (sortedIndexList T) :=
    List.sorted_insertionSort (hitLE T) (List.range T.length)
  rcases lt_trichotomy ((sortedIndexList T).indexOf i) ((sortedIndexList T).indexOf j)
    with h | h | h
  · exact h
  · exfalso
    have hsome : some i = some j := by
      rw [← List.getElem?_indexOf hmemi, ← List.getElem?_indexOf hmemj, h]
    exact absurd (Option.some.inj hsome) (Nat.ne_of_lt hij)
  · exfalso
    have hrel : hitLE T j i := by
      have := List.pairwise_iff_getElem.mp hsorted _ _ hsj hsi h
      rwa [hgi, hgj] at this
    rcases hrel with hlt | ⟨_, hle⟩
    · rw [heq] at hlt
      exact lt_irrefl _ hlt
    · exact absurd hle (Nat.not_le.mpr hij)

/-- C6 witness: on corrected times `[5, 3, 5]`, the equal-time hits 0 and 2
keep their order: hit 0 lands at sorted position 1, hit 2 at position 2. -/
theorem sortedIndexList_stable_witness :
    ((0 : ℕ) < 2 ∧ 2 < ([(5 : ℚ), 3, 5] : List ℚ).length ∧
      ([(5 : ℚ), 3, 5] : List ℚ).getD 0 0 = ([(5 : ℚ), 3, 5] : List ℚ).getD 2 0) ∧
    (sortedIndexList [5, 3, 5]).indexOf 0 < (sortedIndexList [5, 3, 5]).indexOf 2 :=
  ⟨⟨by decide, by decide, by decide⟩,
   sortedIndexList_stable [5, 3, 5] 0 2 (by decide) (by decide) (by decide)⟩

/-! ## Structural lemmas about the scan step -/

/-- Any 10 ns forward window anchored at an in-range hit contains at least
the anchor hit itself. -/
lemma one_le_GetNhits (T : List ℚ) (i : ℕ) (hi : i < T.length) :
    1 ≤ GetNhitsFromStartIndex T i 10 := by
  have hne : T.drop i ≠ [] := by
    simp only [ne_eq, List.drop_eq_nil_iff, not_le]
    exact hi
  obtain ⟨x, xs, hx⟩ := List.exists_cons_of_ne_nil hne
  have hx0 : T.getD i 0 = x := by
    have h0 : (T.drop i)[0]? = some x := by rw [hx]; simp
    rw [List.getElem?_drop, Nat.add_zero] at h0
    rw [List.getD_eq_getElem?_getD, h0]
    rfl
  rw [GetNhitsFromStartIndex, GetVectorFromStartIndex, hx, hx0, List.takeWhile_cons]
  have hcond : decide (x < x + 10) = true := by
    simp only [decide_eq_true_eq]
    linarith
  rw [hcond]
  simp

/-- The recording of the first hit time does not change the anchor
tracking, the candidates, nor the counters relevant to emission. -/
lemma stepFirstHit_fields (T : List ℚ) (s : SearchState) (iHit : ℕ) :
    (stepFirstHit T s iHit).candidates = s.candidates ∧
    (stepFirstHit T s iHit).iHitPrevious = s.iHitPrevious ∧
    (stepFirstHit T s iHit).t0Previous = s.t0Previous ∧
    (stepFirstHit T s iHit).N10Previous = s.N10Previous ∧
    (stepFirstHit T s iHit).N200Previous = s.N200Previous := by
  unfold stepFirstHit
  split <;> exact ⟨rfl, rfl, rfl, rfl, rfl⟩

/-- The maximum-N200 tracking does not change the anchor tracking, the
candidates, nor the counters relevant to emission. -/
lemma stepMaxN200_fields (p : SearchParams) (t0New : ℚ) (N200New : ℕ) (s : SearchState) :
    (stepMaxN200 p t0New N200New s).candidates = s.candidates ∧
    (stepMaxN200 p t0New N200New s).iHitPrevious = s.iHitPrevious ∧
    (stepMaxN200 p t0New N200New s).t0Previous = s.t0Previous ∧
    (stepMaxN200 p t0New N200New s).N10Previous = s.N10Previous ∧
    (stepMaxN200 p t0New N200New s).N200Previous = s.N200Previous := by
  unfold stepMaxN200
  split <;> exact ⟨rfl, rfl, rfl, rfl, rfl⟩

/-- Case analysis of the emission rule: either the separation is not
exceeded and the state is untouched, or the tracked cluster count is reset
and the previous anchor is appended to the candidates exactly when its
`N200` and time pass the emission guards. -/
lemma stepSavePrevious_cases (p : SearchParams) (t0New : ℚ) (s : SearchState) :
    (¬(t0New - s.t0Previous > p.TMINPEAKSEP) ∧ stepSavePrevious p t0New s = s) ∨
    (t0New - s.t0Previous > p.TMINPEAKSEP ∧
      ((s.N200Previous < p.N200MX ∧ s.t0Previous * (1 / 1000) > p.T0TH) ∧
        stepSavePrevious p t0New s =
          { s with candidates := s.candidates ++ [s.iHitPrevious], N10Previous := 0 } ∨
       ¬(s.N200Previous < p.N200MX ∧ s.t0Previous * (1 / 1000) > p.T0TH) ∧
        stepSavePrevious p t0New s = { s with N10Previous := 0 })) := by
  unfold stepSavePrevious
  by_cases hsep : t0New - s.t0Previous > p.TMINPEAKSEP
  · refine Or.inr ⟨hsep, ?_⟩
    by_cases hsave : s.N200Previous < p.N200MX ∧ s.t0Previous * (1 / 1000) > p.T0TH
    · exact Or.inl ⟨hsave, by rw [if_pos hsep, if_pos hsave]⟩
    · exact Or.inr ⟨hsave, by rw [if_pos hsep, if_neg hsave]⟩
  · exact Or.inl ⟨hsep, by rw [if_neg hsep]⟩

/-- Case analysis of the anchor update. -/
lemma stepAnchorUpdate_cases (p : SearchParams) (T : List ℚ) (iHit : ℕ) (s : SearchState) :
    (GetNhitsFromStartIndex T iHit 10 ≤ s.N10Previous ∧ stepAnchorUpdate p T iHit s = s) ∨
    (¬(GetNhitsFromStartIndex T iHit 10 ≤ s.N10Previous) ∧
      stepAnchorUpdate p T iHit s =
        { s with iHitPrevious := iHit, t0Previous := T.getD iHit 0,
                 N10Previous := GetNhitsFromStartIndex T iHit 10,
                 N200Previous := GetNhitsFromCenterTime T (T.getD iHit 0 + 5) 200 }) := by
  unfold stepAnchorUpdate
  by_cases hup : GetNhitsFromStartIndex T iHit 10 ≤ s.N10Previous
  · exact Or.inl ⟨hup, by rw [if_pos hup]⟩
  · exact Or.inr ⟨hup, by rw [if_neg hup]⟩

/-! ## C9 -/

/-- A hit index that passed both the early-time cut and the multiplicity
test of `SearchCaptureCandidates`. -/
def goodAnchor (p : SearchParams) (T : List ℚ) (h : ℕ) : Prop :=
  h < T.length ∧ ¬(T.getD h 0 * (1 / 1000) < p.T0TH) ∧
  p.N10TH ≤ GetNhitsFromStartIndex T h 10 ∧ GetNhitsFromStartIndex T h 10 ≤ p.N10MX

/-- The sentinel invariant of the scan: every saved candidate is a passing
hit, and the tracked anchor is either still the initial sentinel
(`t0Previous = -1`, cluster count 0) or a passing hit. -/
def c9Inv (p : SearchParams) (T : List ℚ) (s : SearchState) : Prop :=
  (∀ h ∈ s.candidates, goodAnchor p T h) ∧
  ((s.t0Previous = -1 ∧ s.N10Previous = 0) ∨ goodAnchor p T s.iHitPrevious)

/-- The sentinel invariant only depends on four fields of the state. -/
lemma c9Inv_of_fields (p : SearchParams) (T : List ℚ) {s s' : SearchState}
    (hc : s'.candidates = s.candidates) (hi : s'.iHitPrevious = s.iHitPrevious)
    (ht : s'.t0Previous = s.t0Previous) (hN : s'.N10Previous = s.N10Previous)
    (hinv : c9Inv p T s) : c9Inv p T s' := by
  unfold c9Inv at hinv ⊢
  rw [hc, hi, ht, hN]
  exact hinv

/-- One scan step preserves the sentinel invariant when the time threshold
is nonnegative. -/
lemma c9Inv_step (p : SearchParams) (T : List ℚ) (s : SearchState) (n : ℕ)
    (hT0 : 0 ≤ p.T0TH) (hn : n < T.length) (hinv : c9Inv p T s) :
    c9Inv p T (searchStep p T s n) := by
  unfold searchStep
  by_cases hguard : T.getD n 0 * (1 / 1000) < p.T0TH
  · rw [if_pos hguard]
    exact hinv
  rw [if_neg hguard]
  unfold searchAfterTimeCut
  obtain ⟨hf1, hf2, hf3, hf4, _⟩ := stepFirstHit_fields T s n
  have hinv1 : c9Inv p T (stepFirstHit T s n) := c9Inv_of_fields p T hf1 hf2 hf3 hf4 hinv
  by_cases hmult : GetNhitsFromStartIndex T n 10 < p.N10TH ∨
      p.N10MX + 1 ≤ GetNhitsFromStartIndex T n 10
  · rw [if_pos hmult]
    exact hinv1
  rw [if_neg hmult]
  have hgood : goodAnchor p T n := by
    push_neg at hmult
    exact ⟨hn, hguard, hmult.1, by omega⟩
  set s1 := stepFirstHit T s n with hs1
  obtain ⟨hm1, hm2, hm3, hm4, _⟩ :=
    stepMaxN200_fields p (T.getD n 0) (GetNhitsFromCenterTime T (T.getD n 0 + 5) 200) s1
  set s2 := stepMaxN200 p (T.getD n 0) (GetNhitsFromCenterTime T (T.getD n 0 + 5) 200) s1
    with hs2
  have hinv2 : c9Inv p T s2 := c9Inv_of_fields p T hm1 hm2 hm3 hm4 hinv1
  have hinv3 : c9Inv p T (stepSavePrevious p (T.getD n 0) s2) := by
    rcases stepSavePrevious_cases p (T.getD n 0) s2 with ⟨_, heq⟩ | ⟨_, hcase⟩
    · rw [heq]
      exact hinv2
    rcases hcase with ⟨⟨_, htime⟩, heq⟩ | ⟨_, heq⟩
    · rw [heq]
      have hanchor : goodAnchor p T s2.iHitPrevious := by
        rcases hinv2.2 with ⟨hsent, _⟩ | hg
        · exfalso
          rw [hsent] at htime
          have : (-1 : ℚ) * (1 / 1000) < 0 := by norm_num
          linarith
        · exact hg
      refine ⟨?_, Or.inr hanchor⟩
      intro h hh
      simp only [List.mem_append, List.mem_singleton] at hh
      rcases hh with hh | hh
      · exact hinv2.1 h hh
      · rw [hh]
        exact hanchor
    · rw [heq]
      refine ⟨hinv2.1, ?_⟩
      rcases hinv2.2 with ⟨hsent, _⟩ | hg
      · exact Or.inl ⟨hsent, rfl⟩
      · exact Or.inr hg
  set s3 := stepSavePrevious p (T.getD n 0) s2 with hs3
  rcases stepAnchorUpdate_cases p T n s3 with ⟨_, heq⟩ | ⟨_, heq⟩
  · rw [heq]
    exact hinv3
  · rw [heq]
    exact ⟨hinv3.1, Or.inr hgood⟩

/-- The scan loop preserves the sentinel invariant. -/
lemma c9Inv_searchScanAux (p : SearchParams) (T : List ℚ) (hT0 : 0 ≤ p.T0TH) :
    ∀ n, n ≤ T.length → c9Inv p T (searchScanAux p T n)
  | 0, _ => by
    refine ⟨fun h hh => absurd hh (List.not_mem_nil h), Or.inl ⟨rfl, rfl⟩⟩
  | n + 1, hle => by
    have hstep : searchScanAux p T (n + 1) = searchStep p T (searchScanAux p T n) n := by
      rw [searchScanAux, searchScanAux, List.range_succ, List.foldl_append,
        List.foldl_cons, List.foldl_nil]
    rw [hstep]
    exact c9Inv_step p T (searchScanAux p T n) n hT0 (by omega)
      (c9Inv_searchScanAux p T hT0 n (by omega))

/-- C9 counterexample: the claim assumes only `T0TH ≥ 0`, but with
`N10TH = 0` (and the default `T0TH = 5 ≥ 0`) the final save after the scan
fires from the untouched sentinel state even on an event with no hits at
all: `SavePeakFromHit(0)` is called although hit 0 does not exist and no
hit ever passed the two tests. -/
theorem sentinel_emitted_with_zero_N10TH :
    (0 : ℚ) ≤ (5 : ℚ) ∧
    (searchCaptureCandidates
        { N10TH := 0, N10MX := 50, N200MX := 200, T0TH := 5, TMINPEAKSEP := 50 }
        []).candidates = [0] ∧
    ([] : List ℚ).length = 0 := by
  decide

/-- C9 (amended): assuming `T0TH ≥ 0` and `N10TH ≥ 1`, every hit index
passed to `SavePeakFromHit` by `SearchCaptureCandidates` — in the loop or
in the final save — is an actual hit of the event that passed both the
early-time cut and the `N10TH ≤ N10 ≤ N10MX` multiplicity test; in
particular an event in which no hit passes both tests yields zero
candidates. -/
theorem candidates_are_passing_hits (p : SearchParams) (T : List ℚ)
    (hT0 : 0 ≤ p.T0TH) (hN10 : 1 ≤ p.N10TH) :
    ∀ h ∈ (searchCaptureCandidates p T).candidates,
      h < T.length ∧ ¬(T.getD h 0 * (1 / 1000) < p.T0TH) ∧
      p.N10TH ≤ GetNhitsFromStartIndex T h 10 ∧
      GetNhitsFromStartIndex T h 10 ≤ p.N10MX := by
  have hinv : c9Inv p T (searchScan p T) :=
    c9Inv_searchScanAux p T hT0 T.length le_rfl
  intro h hh
  unfold searchCaptureCandidates at hh
  by_cases hfin : p.N10TH ≤ (searchScan p T).N10Previous
  · rw [if_pos hfin] at hh
    simp only [List.mem_append, List.mem_singleton] at hh
    rcases hh with hh | hh
    · exact hinv.1 h hh
    · rcases hinv.2 with ⟨_, hzero⟩ | hg
      · omega
      · rw [hh]
        exact hg
  · rw [if_neg hfin] at hh
    exact hinv.1 h hh

/-- C9 witness: the amended theorem applied under the default parameters to
a 10-hit burst at 6000..6009 ns, which yields the single candidate anchored
at hit 0. -/
theorem candidates_are_passing_hits_witness :
    ((0 : ℚ) ≤ defaultParams.T0TH ∧ 1 ≤ defaultParams.N10TH ∧
      (searchCaptureCandidates defaultParams
        [6000, 6001, 6002, 6003, 6004, 6005, 6006, 6007, 6008, 6009]).candidates = [0]) ∧
    ∀ h ∈ (searchCaptureCandidates defaultParams
        [6000, 6001, 6002, 6003, 6004, 6005, 6006, 6007, 6008, 6009]).candidates,
      h < ([6000, 6001, 6002, 6003, 6004, 6005, 6006, 6007, 6008, 6009] : List ℚ).length ∧
      ¬(([6000, 6001, 6002, 6003, 6004, 6005, 6006, 6007, 6008, 6009] :
          List ℚ).getD h 0 * (1 / 1000) < defaultParams.T0TH) ∧
      defaultParams.N10TH ≤
        GetNhitsFromStartIndex [6000, 6001, 6002, 6003, 6004, 6005, 6006, 6007, 6008, 6009]
          h 10 ∧
      GetNhitsFromStartIndex [6000, 6001, 6002, 6003, 6004, 6005, 6006, 6007, 6008, 6009]
          h 10 ≤ defaultParams.N10MX :=
  ⟨⟨by decide, by decide, by decide⟩,
   candidates_are_passing_hits defaultParams
     [6000, 6001, 6002, 6003, 6004, 6005, 6006, 6007, 6008, 6009]
     (by decide) (by decide)⟩

/-! ## C4 -/

/-- Anchor times advance by more than the peak separation. -/
def sepR (SEP a b : ℚ) : Prop := a ≤ b ∧ SEP < b - a

instance (SEP : ℚ) : IsTrans ℚ (sepR SEP) :=
  ⟨fun _ _ _ hab hbc => ⟨hab.1.trans hbc.1, by
    obtain ⟨h1, h2⟩ := hab
    obtain ⟨h3, _⟩ := hbc
    linarith⟩⟩

/-- In a sorted hit series, times are monotone in the index. -/
lemma getD_le_getD_of_pairwise {T : List ℚ} (hsort : List.Pairwise (· ≤ ·) T)
    {i j : ℕ} (hij : i ≤ j) (hj : j < T.length) : T.getD i 0 ≤ T.getD j 0 := by
  rcases Nat.eq_or_lt_of_le hij with h | h
  · rw [h]
  · have hi : i < T.length := h.trans hj
    rw [List.getD_eq_getElem?_getD, List.getD_eq_getElem?_getD,
      List.getElem?_eq_getElem hi, List.getElem?_eq_getElem hj]
    exact List.pairwise_iff_getElem.mp hsort i j hi hj h

/-- The separation invariant of the scan after processing the first `n`
hits: the emitted anchors' times form a chain advancing by more than
`TMINPEAKSEP` each, the tracked anchor is more than `TMINPEAKSEP` past the
last emitted one, and the tracked anchor is the sentinel or an already
processed hit. -/
def scanInv (p : SearchParams) (T : List ℚ) (s : SearchState) (n : ℕ) : Prop :=
  List.Chain' (sepR p.TMINPEAKSEP) (s.candidates.map (fun h => T.getD h 0)) ∧
  (∀ c ∈ (s.candidates.map (fun h => T.getD h 0)).getLast?,
    sepR p.TMINPEAKSEP c s.t0Previous) ∧
  ((s.t0Previous = -1 ∧ s.candidates = []) ∨
    (s.iHitPrevious < n ∧ s.t0Previous = T.getD s.iHitPrevious 0))

/-- The separation invariant is monotone in the processed-hit bound. -/
lemma scanInv_weaken {p : SearchParams} {T : List ℚ} {s : SearchState} {n : ℕ}
    (hinv : scanInv p T s n) : scanInv p T s (n + 1) := by
  refine ⟨hinv.1, hinv.2.1, ?_⟩
  rcases hinv.2.2 with h | ⟨h1, h2⟩
  · exact Or.inl h
  · exact Or.inr ⟨by omega, h2⟩

/-- The separation invariant only depends on three fields of the state. -/
lemma scanInv_of_fields (p : SearchParams) (T : List ℚ) {s s' : SearchState} {n : ℕ}
    (hc : s'.candidates = s.candidates) (hi : s'.iHitPrevious = s.iHitPrevious)
    (ht : s'.t0Previous = s.t0Previous) (hinv : scanInv p T s n) : scanInv p T s' n := by
  unfold scanInv at hinv ⊢
  rw [hc, hi, ht]
  exact hinv

/-- The last emitted anchor is more than the separation before the time of
any later processed hit. -/
lemma sepR_last_to_current (p : SearchParams) (T : List ℚ)
    (hsort : List.Pairwise (· ≤ ·) T) {s : SearchState} {n : ℕ} (hn : n < T.length)
    (hinv : scanInv p T s n) :
    ∀ c ∈ (s.candidates.map (fun h => T.getD h 0)).getLast?,
      sepR p.TMINPEAKSEP c (T.getD n 0) := by
  intro c hc
  rcases hinv.2.2 with ⟨_, hnil⟩ | ⟨hip, heqt⟩
  · rw [hnil] at hc
    simp at hc
  · have ht : s.t0Previous ≤ T.getD n 0 := by
      rw [heqt]
      exact getD_le_getD_of_pairwise hsort (Nat.le_of_lt hip) hn
    obtain ⟨h1, h2⟩ := hinv.2.1 c hc
    exact ⟨h1.trans ht, by linarith⟩

/-- One scan step preserves the separation invariant on sorted input with a
nonnegative time threshold. -/
lemma scanInv_step (p : SearchParams) (T : List ℚ) (s : SearchState) (n : ℕ)
    (hT0 : 0 ≤ p.T0TH) (hsort : List.Pairwise (· ≤ ·) T) (hn : n < T.length)
    (hinv : scanInv p T s n) : scanInv p T (searchStep p T s n) (n + 1) := by
  unfold searchStep
  by_cases hguard : T.getD n 0 * (1 / 1000) < p.T0TH
  · rw [if_pos hguard]
    exact scanInv_weaken hinv
  rw [if_neg hguard]
  unfold searchAfterTimeCut
  obtain ⟨hf1, hf2, hf3, _, _⟩ := stepFirstHit_fields T s n
  have hinv1 : scanInv p T (stepFirstHit T s n) n := scanInv_of_fields p T hf1 hf2 hf3 hinv
  by_cases hmult : GetNhitsFromStartIndex T n 10 < p.N10TH ∨
      p.N10MX + 1 ≤ GetNhitsFromStartIndex T n 10
  · rw [if_pos hmult]
    exact scanInv_weaken hinv1
  rw [if_neg hmult]
  set s1 := stepFirstHit T s n with hs1
  obtain ⟨hm1, hm2, hm3, _, _⟩ :=
    stepMaxN200_fields p (T.getD n 0) (GetNhitsFromCenterTime T (T.getD n 0 + 5) 200) s1
  set s2 := stepMaxN200 p (T.getD n 0) (GetNhitsFromCenterTime T (T.getD n 0 + 5) 200) s1
    with hs2
  have hinv2 : scanInv p T s2 n := scanInv_of_fields p T hm1 hm2 hm3 hinv1
  have hone : 1 ≤ GetNhitsFromStartIndex T n 10 := one_le_GetNhits T n hn
  have hlast := sepR_last_to_current p T hsort hn hinv2
  rcases stepSavePrevious_cases p (T.getD n 0) s2 with ⟨_, heq3⟩ | ⟨hsep, hcase⟩
  · -- separation not exceeded: state passes through the emission rule
    rw [heq3]
    rcases stepAnchorUpdate_cases p T n s2 with ⟨_, hequ⟩ | ⟨_, hequ⟩
    · rw [hequ]
      exact scanInv_weaken hinv2
    · rw [hequ]
      exact ⟨hinv2.1, hlast, Or.inr ⟨Nat.lt_succ_self n, rfl⟩⟩
  rcases hcase with ⟨⟨_, htime⟩, heq3⟩ | ⟨_, heq3⟩
  · -- previous anchor emitted
    have hprev : s2.iHitPrevious < n ∧ s2.t0Previous = T.getD s2.iHitPrevious 0 := by
      rcases hinv2.2.2 with ⟨hsent, _⟩ | hg
      · exfalso
        rw [hsent] at htime
        have : (-1 : ℚ) * (1 / 1000) < 0 := by norm_num
        linarith
      · exact hg
    rw [heq3]
    rcases stepAnchorUpdate_cases p T n
        { s2 with candidates := s2.candidates ++ [s2.iHitPrevious], N10Previous := 0 }
      with ⟨hle, _⟩ | ⟨_, hequ⟩
    · exfalso
      have hle0 : GetNhitsFromStartIndex T n 10 ≤ 0 := hle
      omega
    · rw [hequ]
      refine ⟨?_, ?_, Or.inr ⟨Nat.lt_succ_self n, rfl⟩⟩
      · simp only [List.map_append, List.map_cons, List.map_nil]
        rw [List.chain'_append]
        refine ⟨hinv2.1, List.chain'_singleton _, ?_⟩
        intro x hx y hy
        simp only [List.head?_cons, Option.mem_def, Option.some.injEq] at hy
        rw [← hy, ← hprev.2]
        exact hinv2.2.1 x hx
      · simp only [List.map_append, List.map_cons, List.map_nil]
        intro c hc
        rw [List.getLast?_concat] at hc
        simp only [Option.mem_def, Option.some.injEq] at hc
        rw [← hc, ← hprev.2]
        refine ⟨?_, hsep⟩
        rw [hprev.2]
        exact getD_le_getD_of_pairwise hsort (Nat.le_of_lt hprev.1) hn
  · -- separation exceeded but the previous anchor fails the emission guard
    rw [heq3]
    rcases stepAnchorUpdate_cases p T n { s2 with N10Previous := 0 }
      with ⟨hle, _⟩ | ⟨_, hequ⟩
    · exfalso
      have hle0 : GetNhitsFromStartIndex T n 10 ≤ 0 := hle
      omega
    · rw [hequ]
      exact ⟨hinv2.1, hlast, Or.inr ⟨Nat.lt_succ_self n, rfl⟩⟩

/-- The scan loop establishes the separation invariant. -/
lemma scanInv_searchScanAux (p : SearchParams) (T : List ℚ) (hT0 : 0 ≤ p.T0TH)
    (hsort : List.Pairwise (· ≤ ·) T) :
    ∀ n, n ≤ T.length → scanInv p T (searchScanAux p T n) n
  | 0, _ => by
    have h0 : searchScanAux p T 0 = initialSearchState := rfl
    rw [h0]
    exact ⟨List.chain'_nil, by simp [initialSearchState], Or.inl ⟨rfl, rfl⟩⟩
  | n + 1, hle => by
    have hstep : searchScanAux p T (n + 1) = searchStep p T (searchScanAux p T n) n := by
      rw [searchScanAux, searchScanAux, List.range_succ, List.foldl_append,
        List.foldl_cons, List.foldl_nil]
    rw [hstep]
    exact scanInv_step p T (searchScanAux p T n) n hT0 hsort (by omega)
      (scanInv_searchScanAux p T hT0 hsort n (by omega))

/-- C4 counterexample: the claim holds for no restriction on the
parameters, but with a negative `T0TH` the sentinel anchor (`iHitPrevious
= 0`, `t0Previous = -1`) itself passes the in-loop emission guard.  With
`N10TH = 1`, `N10MX = 2`, `T0TH = -10`, `TMINPEAKSEP = 5` on the sorted
input `[10, 10, 10, 16]`, the scan loop emits candidates 0 and 2 — neither
of which is the final post-loop save (hit 3 is) — whose anchor times are
both 10 ns, differing by 0 ≤ `TMINPEAKSEP`. -/
theorem loop_candidates_within_separation_example :
    (searchScan { N10TH := 1, N10MX := 2, N200MX := 200, T0TH := -10, TMINPEAKSEP := 5 }
        [10, 10, 10, 16]).candidates = [0, 2] ∧
    (searchCaptureCandidates
        { N10TH := 1, N10MX := 2, N200MX := 200, T0TH := -10, TMINPEAKSEP := 5 }
        [10, 10, 10, 16]).candidates = [0, 2, 3] ∧
    List.Pairwise (fun a b : ℚ => a ≤ b) [10, 10, 10, 16] ∧
    ([(10 : ℚ), 10, 10, 16].getD 2 0 - [(10 : ℚ), 10, 10, 16].getD 0 0 = 0) ∧
    ¬((5 : ℚ) < [(10 : ℚ), 10, 10, 16].getD 2 0 - [(10 : ℚ), 10, 10, 16].getD 0 0) := by
  decide

/-- C4 (amended): on a sorted hit series, and assuming the time threshold
`T0TH` is nonnegative (which bars the sentinel anchor from the in-loop
emission guard), the anchor times of the candidates emitted inside the scan
loop — i.e. all candidates except a possible final post-loop save —
pairwise differ by strictly more than `TMINPEAKSEP`, each later anchor
lying later in time. -/
theorem searchScan_loop_candidates_separated (p : SearchParams) (T : List ℚ)
    (hT0 : 0 ≤ p.T0TH) (hsort : List.Pairwise (· ≤ ·) T) :
    List.Pairwise (fun a b => p.TMINPEAKSEP < T.getD b 0 - T.getD a 0)
      (searchScan p T).candidates := by
  have hinv : scanInv p T (searchScan p T) T.length :=
    scanInv_searchScanAux p T hT0 hsort T.length le_rfl
  have hchain := hinv.1
  rw [List.chain'_iff_pairwise] at hchain
  rw [List.pairwise_map] at hchain
  exact hchain.imp (fun h => h.2)

/-- C4 witness: the amended theorem applied to three 7-hit bursts at 10,
100 and 200 ns with `T0TH = 0`; the loop emits anchors 0 and 7 (times 10
and 100 ns, 90 ns apart) and hit 14 is the post-loop save. -/
theorem searchScan_loop_candidates_separated_witness :
    ((0 : ℚ) ≤ (0 : ℚ) ∧
      List.Pairwise (fun a b : ℚ => a ≤ b)
        [10, 11, 12, 13, 14, 15, 16, 100, 101, 102, 103, 104, 105, 106,
         200, 201, 202, 203, 204, 205, 206] ∧
      (searchScan { N10TH := 7, N10MX := 50, N200MX := 200, T0TH := 0, TMINPEAKSEP := 50 }
        [10, 11, 12, 13, 14, 15, 16, 100, 101, 102, 103, 104, 105, 106,
         200, 201, 202, 203, 204, 205, 206]).candidates = [0, 7]) ∧
    List.Pairwise
      (fun a b =>
        ({ N10TH := 7, N10MX := 50, N200MX := 200, T0TH := 0,
           TMINPEAKSEP := 50 } : SearchParams).TMINPEAKSEP <
          ([10, 11, 12, 13, 14, 15, 16, 100, 101, 102, 103, 104, 105, 106,
            200, 201, 202, 203, 204, 205, 206] : List ℚ).getD b 0 -
          ([10, 11, 12, 13, 14, 15, 16, 100, 101, 102, 103, 104, 105, 106,
            200, 201, 202, 203, 204, 205, 206] : List ℚ).getD a 0)
      (searchScan { N10TH := 7, N10MX := 50, N200MX := 200, T0TH := 0, TMINPEAKSEP := 50 }
        [10, 11, 12, 13, 14, 15, 16, 100, 101, 102, 103, 104, 105, 106,
         200, 201, 202, 203, 204, 205, 206]).candidates :=
  ⟨⟨by decide, by decide, by decide⟩,
   searchScan_loop_candidates_separated
     { N10TH := 7, N10MX := 50, N200MX := 200, T0TH := 0, TMINPEAKSEP := 50 }
     [10, 11, 12, 13, 14, 15, 16, 100, 101, 102, 103, 104, 105, 106,
      200, 201, 202, 203, 204, 205, 206]
     (by decide) (by decide)⟩

/-! ## Association-list lemmas -/

/-- Mapping a key-preserving function over an association list preserves
which keys are found. -/
lemma lookup_isSome_map {α β : Type} (f : String × α → String × β)
    (hfst : ∀ q, (f q).1 = q.1) (k : String) :
    ∀ m : List (String × α), ((m.map f).lookup k).isSome = (m.lookup k).isSome
  | [] => rfl
  | q :: t => by
    have hq : f q = ((f q).1, (f q).2) := rfl
    rw [List.map_cons, hq, List.lookup_cons, hfst q]
    cases q with
    | mk a b =>
      rw [List.lookup_cons]
      cases hbeq : k == a
      · simpa using lookup_isSome_map f hfst k t
      · simp

/-- Looking up after mapping `(k, v) ↦ (k, g k v)` over an association list
transforms the found value by `g`. -/
lemma lookup_map_value {α β : Type} (g : String → α → β) (k : String) :
    ∀ m : List (String × α),
      ((m.map (fun q => (q.1, g q.1 q.2))).lookup k) = (m.lookup k).map (g k)
  | [] => rfl
  | q :: t => by
    cases q with
    | mk a b =>
      rw [List.map_cons, List.lookup_cons, List.lookup_cons]
      cases hbeq : k == a
      · simpa using lookup_map_value g k t
      · have : k = a := by simpa using hbeq
        subst this
        simp

/-- A successful association-list lookup exhibits a member. -/
lemma mem_of_lookup_eq_some {α : Type} {k : String} {v : α} :
    ∀ {m : List (String × α)}, m.lookup k = some v → (k, v) ∈ m
  | [], h => by simp at h
  | q :: t, h => by
    cases q with
    | mk a b =>
      rw [List.lookup_cons] at h
      cases hbeq : k == a
      · rw [hbeq] at h
        exact List.mem_cons_of_mem _ (mem_of_lookup_eq_some h)
      · rw [hbeq] at h
        have ha : k = a := by simpa using hbeq
        have hb : b = v := by simpa using h
        subst ha
        subst hb
        exact List.mem_cons_self _ _

/-! ## C7 -/

/-- Pushing onto an existing feature vector succeeds and returns the map
with that vector extended. -/
lemma pushVar_ok {α : Type} (m : List (String × List α)) (k : String) (v : α)
    (h : (m.lookup k).isSome = true) :
    pushVar m k v =
      Except.ok (m.map (fun q => if q.1 = k then (q.1, q.2 ++ [v]) else q)) := by
  unfold pushVar
  rw [if_pos h]

/-- Pushing onto an existing feature vector does not change which names
have vectors. -/
lemma pushVar_lookup_isSome {α : Type} (m : List (String × List α)) (k : String) (v : α)
    (k' : String) :
    (((m.map (fun q => if q.1 = k then (q.1, q.2 ++ [v]) else q)).lookup k')).isSome =
      ((m.lookup k')).isSome := by
  refine lookup_isSome_map _ (fun q => ?_) k' m
  by_cases h : q.1 = k <;> simp [h]

/-- Folding a candidate dictionary into the store succeeds whenever every
pushed name already has a vector, and preserves which names have vectors. -/
lemma foldlM_pushVar_ok {α : Type} :
    ∀ (pairs : List (String × α)) (m : List (String × List α)),
      (∀ q ∈ pairs, ((m.lookup q.1)).isSome = true) →
      ∃ m2, (pairs.foldlM (fun acc q => pushVar acc q.1 q.2) m) = Except.ok m2 ∧
        ∀ k, ((m2.lookup k)).isSome = ((m.lookup k)).isSome
  | [], m, _ => ⟨m, rfl, fun _ => rfl⟩
  | q :: rest, m, hall => by
    have hq := hall q (List.mem_cons_self q rest)
    have hok := pushVar_ok m q.1 q.2 hq
    obtain ⟨m2, hfold, hpres2⟩ :=
      foldlM_pushVar_ok rest (m.map (fun r => if r.1 = q.1 then (r.1, r.2 ++ [q.2]) else r))
        (fun r hr => by
          rw [pushVar_lookup_isSome]
          exact hall r (List.mem_cons_of_mem q hr))
    refine ⟨m2, ?_, fun k => (hpres2 k).trans (pushVar_lookup_isSome m q.1 q.2 k)⟩
    rw [List.foldlM_cons, hok]
    exact hfold

/-- C7 counterexample: the feature-name schema is fixed from the first
candidate (here the single integer feature `N10`), and a second candidate
of the same event that is missing `N10` is accepted without any error: the
extraction returns `ok` and the `N10` column ends up with a single value
for two candidates, silently breaking the equal-length invariant, instead
of raising a contract violation. -/
theorem missing_feature_name_accepted_silently :
    SetCandidateVariables false ⟨[], []⟩
        [⟨[("N10", 3)], []⟩, ⟨[], []⟩] =
      Except.ok ⟨[("N10", [3])], []⟩ ∧
    ([⟨[("N10", 3)], []⟩, ⟨[], []⟩] : List NTagCandidateVars).length = 2 ∧
    ([3] : List ℤ).length ≠ 2 :=
  ⟨rfl, rfl, by decide⟩

/-- C7 (amended): the store never validates candidate name sets.  A later
candidate missing previously-seen names is accepted silently — whenever
every name carried by the candidates already has an allocated vector, the
extraction succeeds with no error, a missing name simply contributing no
value to its column; and a candidate carrying an unseen name does not
raise a typed contract violation either but dereferences a default-inserted
null vector pointer (undefined behavior, modelled as a hard fault). -/
theorem extract_succeeds_when_names_within_schema :
    ∀ (cands : List NTagCandidateVars) (st : CandidateVarStore),
      (∀ c ∈ cands, ∀ q ∈ c.iVarMap, ((st.iCandidateVarMap.lookup q.1)).isSome = true) →
      (∀ c ∈ cands, ∀ q ∈ c.fVarMap, ((st.fCandidateVarMap.lookup q.1)).isSome = true) →
      ∃ st2, ExtractCandidateVariables st cands = Except.ok st2
  | [], st, _, _ => ⟨st, rfl⟩
  | c :: rest, st, hi, hf => by
    obtain ⟨m1, h1, hp1⟩ :=
      foldlM_pushVar_ok c.iVarMap st.iCandidateVarMap
        (hi c (List.mem_cons_self c rest))
    obtain ⟨m2, h2, hp2⟩ :=
      foldlM_pushVar_ok c.fVarMap st.fCandidateVarMap
        (hf c (List.mem_cons_self c rest))
    have hone : extractOneCandidate st c =
        Except.ok (CandidateVarStore.mk m1 m2) := by
      unfold extractOneCandidate
      rw [h1]
      show ((c.fVarMap.foldlM (fun m q => pushVar m q.1 q.2) st.fCandidateVarMap) >>=
          fun fm => pure (CandidateVarStore.mk m1 fm)) =
        Except.ok (CandidateVarStore.mk m1 m2)
      rw [h2]
      rfl
    obtain ⟨st2, hrest⟩ :=
      extract_succeeds_when_names_within_schema rest ⟨m1, m2⟩
        (fun c' hc' q hq => by
          rw [show (CandidateVarStore.mk m1 m2).iCandidateVarMap = m1 from rfl, hp1]
          exact hi c' (List.mem_cons_of_mem c hc') q hq)
        (fun c' hc' q hq => by
          rw [show (CandidateVarStore.mk m1 m2).fCandidateVarMap = m2 from rfl, hp2]
          exact hf c' (List.mem_cons_of_mem c hc') q hq)
    refine ⟨st2, ?_⟩
    unfold ExtractCandidateVariables at hrest ⊢
    rw [List.foldlM_cons, hone]
    exact hrest

/-- C7 witness: the amended theorem applied to a store initialized with
`N10` and `dt` columns and two candidates whose names all lie within the
schema (the second candidate missing both names). -/
theorem extract_succeeds_when_names_within_schema_witness :
    ((∀ c ∈ ([⟨[("N10", 3)], [("dt", 1)]⟩, ⟨[], []⟩] : List NTagCandidateVars),
        ∀ q ∈ c.iVarMap,
          (((CandidateVarStore.mk [("N10", [])] [("dt", [])]).iCandidateVarMap.lookup
            q.1)).isSome = true) ∧
      (∀ c ∈ ([⟨[("N10", 3)], [("dt", 1)]⟩, ⟨[], []⟩] : List NTagCandidateVars),
        ∀ q ∈ c.fVarMap,
          (((CandidateVarStore.mk [("N10", [])] [("dt", [])]).fCandidateVarMap.lookup
            q.1)).isSome = true)) ∧
    ∃ st2, ExtractCandidateVariables (CandidateVarStore.mk [("N10", [])] [("dt", [])])
        [⟨[("N10", 3)], [("dt", 1)]⟩, ⟨[], []⟩] = Except.ok st2 :=
  ⟨⟨by decide, by decide⟩,
   extract_succeeds_when_names_within_schema
     [⟨[("N10", 3)], [("dt", 1)]⟩, ⟨[], []⟩]
     (CandidateVarStore.mk [("N10", [])] [("dt", [])])
     (by decide) (by decide)⟩

/-! ## C8 -/

/-- C8 counterexample: with the `N10` column holding the integer value 3
and the float event vector holding 7.5 for the same name, the reader
variable for `N10` is refilled with the integer value 3, not the float
value 7.5, and the output tree receives only the integer `N10` branch — the
float namespace entry is ignored on both output paths, so the claim that
the floating value wins is false. -/
theorem integer_value_wins_example :
    ((SetVariablesForCaptureCandidate [("N10", [3])]
        [("N10", [15 / 2]), ("dt", [6 / 5])] 0).2).lookup "N10" = some 3 ∧
    ¬(((SetVariablesForCaptureCandidate [("N10", [3])]
        [("N10", [15 / 2]), ("dt", [6 / 5])] 0).2).lookup "N10" = some (15 / 2)) ∧
    MakeBranchesToTree ["N10"] [("N10", [3])] [("N10", [15 / 2]), ("dt", [6 / 5])] =
      [("N10", Sum.inl [3]), ("dt", Sum.inr [6 / 5])] := by
  decide

/-- C8 (amended): for a feature name present in both namespaces the
integer value wins on every output path: the classifier-reader variable
(the float scalar map) is overwritten with the integer event vector's value
for the candidate, and only the integer event vector is branched to the
output tree — no float branch exists for the shared name. -/
theorem shared_name_integer_value_wins (iEventVectorMap : List (String × List ℤ))
    (fEventVectorMap : List (String × List ℚ)) (iVariableKeys : List String)
    (iCandidate : ℕ) (k : String) (zvec : List ℤ)
    (hz : iEventVectorMap.lookup k = some zvec)
    (hf : ((fEventVectorMap.lookup k)).isSome = true)
    (hk : iVariableKeys.contains k = true) :
    ((SetVariablesForCaptureCandidate iEventVectorMap fEventVectorMap iCandidate).2).lookup
        k = some ((zvec.getD iCandidate 0 : ℤ) : ℚ) ∧
    (k, Sum.inl zvec) ∈ MakeBranchesToTree iVariableKeys iEventVectorMap fEventVectorMap ∧
    ∀ w : List ℚ,
      (k, Sum.inr w) ∉ MakeBranchesToTree iVariableKeys iEventVectorMap fEventVectorMap := by
  have hlookI : (iEventVectorMap.map (fun q => (q.1, q.2.getD iCandidate 0))).lookup k =
      some (zvec.getD iCandidate 0) := by
    have h := lookup_map_value (fun _ (v : List ℤ) => v.getD iCandidate 0) k iEventVectorMap
    rw [hz] at h
    simpa using h
  refine ⟨?_, ?_, ?_⟩
  · show (fEventVectorMap.map (fun q =>
      (q.1, match (iEventVectorMap.map (fun r => (r.1, r.2.getD iCandidate 0))).lookup q.1
            with
            | some z => (z : ℚ)
            | none => q.2.getD iCandidate 0))).lookup k =
        some ((zvec.getD iCandidate 0 : ℤ) : ℚ)
    have h := lookup_map_value
      (fun (k' : String) (v : List ℚ) =>
        match (iEventVectorMap.map (fun r => (r.1, r.2.getD iCandidate 0))).lookup k' with
        | some z => (z : ℚ)
        | none => v.getD iCandidate 0)
      k fEventVectorMap
    rw [h]
    obtain ⟨fv, hfv⟩ := Option.isSome_iff_exists.mp hf
    rw [hfv, Option.map_some', hlookI]
  · unfold MakeBranchesToTree
    refine List.mem_append_left _ ?_
    exact List.mem_map.mpr ⟨(k, zvec), mem_of_lookup_eq_some hz, rfl⟩
  · intro w hmem
    unfold MakeBranchesToTree at hmem
    rcases List.mem_append.mp hmem with hmem | hmem
    · obtain ⟨q, _, heq⟩ := List.mem_map.mp hmem
      exact Sum.noConfusion (congrArg Prod.snd heq)
    · obtain ⟨q, hqf, heq⟩ := List.mem_map.mp hmem
      have hq1 : q.1 = k := congrArg Prod.fst heq
      have hfilter := (List.mem_filter.mp hqf).2
      rw [hq1] at hfilter
      rw [hk] at hfilter
      exact Bool.noConfusion hfilter

/-- C8 witness: the amended theorem applied to the `N10`/`dt` example. -/
theorem shared_name_integer_value_wins_witness :
    (([("N10", [3])] : List (String × List ℤ)).lookup "N10" = some [3] ∧
      ((([("N10", [15 / 2]), ("dt", [6 / 5])] : List (String × List ℚ)).lookup
        "N10")).isSome = true ∧
      (["N10"] : List String).contains "N10" = true) ∧
    (((SetVariablesForCaptureCandidate [("N10", [3])]
        [("N10", [15 / 2]), ("dt", [6 / 5])] 0).2).lookup "N10" =
          some ((([3] : List ℤ).getD 0 0 : ℤ) : ℚ) ∧
      ("N10", Sum.inl [3]) ∈
        MakeBranchesToTree ["N10"] [("N10", [3])] [("N10", [15 / 2]), ("dt", [6 / 5])] ∧
      ∀ w : List ℚ, ("N10", Sum.inr w) ∉
        MakeBranchesToTree ["N10"] [("N10", [3])] [("N10", [15 / 2]), ("dt", [6 / 5])]) :=
  ⟨⟨by decide, by decide, by decide⟩,
   shared_name_integer_value_wins [("N10", [3])] [("N10", [15 / 2]), ("dt", [6 / 5])]
     ["N10"] 0 "N10" [3] (by decide) (by decide) (by decide)⟩

/-! ## C10 -/

/-- The signal-flag block only touches the signal flags and counters. -/
lemma appendSignalFlag_fields (P : RawHitParams) (hitTime : ℚ) (cab : ℤ)
    (s : RawHitState) :
    (appendSignalFlag P hitTime cab s).vTISKZ = s.vTISKZ ∧
    (appendSignalFlag P hitTime cab s).vCABIZ = s.vCABIZ ∧
    (appendSignalFlag P hitTime cab s).vPMTHitTime = s.vPMTHitTime ∧
    (appendSignalFlag P hitTime cab s).nRemovedHits = s.nRemovedHits := by
  unfold appendSignalFlag
  split
  · dsimp only
    split <;> exact ⟨rfl, rfl, rfl, rfl⟩
  · exact ⟨rfl, rfl, rfl, rfl⟩

/-- The deadtime invariant only depends on the hit triplet and the per-PMT
time array. -/
lemma deadtimeInv_of_fields (W : ℚ) {s s' : RawHitState}
    (ht : s'.vTISKZ = s.vTISKZ) (hc : s'.vCABIZ = s.vCABIZ)
    (hp : s'.vPMTHitTime = s.vPMTHitTime) (hinv : deadtimeInv W s) : deadtimeInv W s' := by
  unfold deadtimeInv hitTimesOnPMT at hinv ⊢
  rw [ht, hc, hp]
  exact hinv

/-- Appending one aligned (time, cable) pair extends exactly the hit list
of its own PMT. -/
lemma hitTimesOnPMT_append (s : RawHitState) (t : ℚ) (q : ℚ) (c : ℤ)
    (hlen : s.vTISKZ.length = s.vCABIZ.length) (f : ℤ → ℚ) (p : ℤ) :
    hitTimesOnPMT
      { s with vTISKZ := s.vTISKZ ++ [t], vQISKZ := s.vQISKZ ++ [q],
               vCABIZ := s.vCABIZ ++ [c], vPMTHitTime := f } p =
      hitTimesOnPMT s p ++ (if c = p then [t] else []) := by
  unfold hitTimesOnPMT
  show (((s.vTISKZ ++ [t]).zip (s.vCABIZ ++ [c])).filter
      (fun x => decide (x.2 = p))).map Prod.fst = _
  rw [List.zip_append hlen, List.filter_append, List.map_append]
  congr 1
  by_cases hc : c = p <;> simp [hc]

/-- The drop-or-append branch preserves the deadtime invariant. -/
lemma deadtimeInv_appendHitBranch (P : RawHitParams) (hitTime : ℚ) (h : RawHit)
    (s : RawHitState) (hinv : deadtimeInv (P.TRBNWIDTH * 1000) s) :
    deadtimeInv (P.TRBNWIDTH * 1000) (appendHitBranch P hitTime h s) := by
  unfold appendHitBranch
  by_cases hdt : |hitTime - s.vPMTHitTime h.cab| < P.TRBNWIDTH * 1000
  · rw [if_pos hdt]
    exact deadtimeInv_of_fields _ rfl rfl rfl hinv
  rw [if_neg hdt]
  obtain ⟨hsf1, hsf2, hsf3, _⟩ := appendSignalFlag_fields P hitTime h.cab
    { s with vTISKZ := s.vTISKZ ++ [hitTime], vQISKZ := s.vQISKZ ++ [h.q],
             vCABIZ := s.vCABIZ ++ [h.cab],
             vPMTHitTime := Function.update s.vPMTHitTime h.cab hitTime }
  refine deadtimeInv_of_fields _ hsf1 hsf2 hsf3 ?_
  refine ⟨?_, ?_⟩
  · show (s.vTISKZ ++ [hitTime]).length = (s.vCABIZ ++ [h.cab]).length
    simp [hinv.1]
  intro p
  rw [hitTimesOnPMT_append s hitTime h.q h.cab hinv.1 _ p]
  by_cases hc : h.cab = p
  · rw [if_pos hc]
    constructor
    · rw [List.chain'_append]
      refine ⟨(hinv.2 p).1, List.chain'_singleton _, ?_⟩
      intro x hx y hy
      simp only [List.head?_cons, Option.mem_def, Option.some.injEq] at hy
      have hvx : s.vPMTHitTime p = x := (hinv.2 p).2 x hx
      rw [← hy]
      have hvx' : s.vPMTHitTime h.cab = x := by rw [hc]; exact hvx
      rw [← hvx']
      exact le_of_not_lt hdt
    · intro tl htl
      rw [List.getLast?_concat] at htl
      simp only [Option.mem_def, Option.some.injEq] at htl
      show Function.update s.vPMTHitTime h.cab hitTime p = tl
      rw [← htl, hc, Function.update_same]
  · rw [if_neg hc]
    rw [List.append_nil]
    constructor
    · exact (hinv.2 p).1
    · intro tl htl
      show Function.update s.vPMTHitTime h.cab hitTime p = tl
      rw [Function.update_noteq (fun hpc => hc hpc.symm)]
      exact (hinv.2 p).2 tl htl

/-- One loop iteration preserves the deadtime invariant. -/
lemma deadtimeInv_appendStep (P : RawHitParams) (tLast qLast : ℚ) (pmtLast : ℤ)
    (acc : RawHitState × ℚ × Bool) (h : RawHit)
    (hinv : deadtimeInv (P.TRBNWIDTH * 1000) acc.1) :
    deadtimeInv (P.TRBNWIDTH * 1000) ((appendStep P tLast qLast pmtLast acc h).1) := by
  unfold appendStep
  by_cases hgate : h.flag.testBit 1 ∧ h.cab ≤ P.MAXPM
  · rw [if_pos hgate]
    exact deadtimeInv_appendHitBranch P _ h _ (deadtimeInv_of_fields _ rfl rfl rfl hinv)
  · rw [if_neg hgate]
    exact hinv

/-- The whole hit loop preserves the deadtime invariant. -/
lemma deadtimeInv_foldl (P : RawHitParams) (tLast qLast : ℚ) (pmtLast : ℤ) :
    ∀ (hits : List RawHit) (acc : RawHitState × ℚ × Bool),
      deadtimeInv (P.TRBNWIDTH * 1000) acc.1 →
      deadtimeInv (P.TRBNWIDTH * 1000)
        ((hits.foldl (appendStep P tLast qLast pmtLast) acc).1)
  | [], _, hinv => hinv
  | h :: rest, acc, hinv => by
    rw [List.foldl_cons]
    exact deadtimeInv_foldl P tLast qLast pmtLast rest _
      (deadtimeInv_appendStep P tLast qLast pmtLast acc h hinv)

/-- C10: `AppendRawHitInfo` silently deadtime-filters the hit stream per
PMT.  Starting from any state satisfying the deadtime invariant (in
particular the cleared state), the whole call preserves it, so consecutive
stored hits on one PMT always sit at least `TRBNWIDTH * 1000` ns —
`TRBNWIDTH` microseconds — apart and `vPMTHitTime` tracks the last appended
hit per PMT; moreover each in-gate hit with cable id at most `MAXPM` is
dropped and counted in `nRemovedHits` exactly when its offset-adjusted time
is within `TRBNWIDTH * 1000` ns of `vPMTHitTime` for its PMT (the time of
the last appended hit there, or the initial 0), and appended otherwise. -/
theorem AppendRawHitInfo_deadtime_filter (P : RawHitParams) (s0 : RawHitState)
    (hits : List RawHit) (hinv : deadtimeInv (P.TRBNWIDTH * 1000) s0) :
    deadtimeInv (P.TRBNWIDTH * 1000) (AppendRawHitInfo P s0 hits) ∧
    ∀ (tLast qLast : ℚ) (pmtLast : ℤ) (acc : RawHitState × ℚ × Bool) (h : RawHit),
      h.flag.testBit 1 = true → h.cab ≤ P.MAXPM →
      ((|h.t + (adjustedOffset tLast qLast pmtLast acc.2 h).1 - acc.1.vPMTHitTime h.cab| <
          P.TRBNWIDTH * 1000 →
        (appendStep P tLast qLast pmtLast acc h).1.vTISKZ = acc.1.vTISKZ ∧
        (appendStep P tLast qLast pmtLast acc h).1.vCABIZ = acc.1.vCABIZ ∧
        (appendStep P tLast qLast pmtLast acc h).1.nRemovedHits =
          acc.1.nRemovedHits + 1) ∧
       (P.TRBNWIDTH * 1000 ≤
          |h.t + (adjustedOffset tLast qLast pmtLast acc.2 h).1 - acc.1.vPMTHitTime h.cab| →
        (appendStep P tLast qLast pmtLast acc h).1.vTISKZ =
          acc.1.vTISKZ ++ [h.t + (adjustedOffset tLast qLast pmtLast acc.2 h).1] ∧
        (appendStep P tLast qLast pmtLast acc h).1.vCABIZ = acc.1.vCABIZ ++ [h.cab] ∧
        (appendStep P tLast qLast pmtLast acc h).1.nRemovedHits = acc.1.nRemovedHits)) := by
  constructor
  · exact deadtimeInv_foldl P _ _ _ hits _ hinv
  intro tLast qLast pmtLast acc h hflag hcab
  have hgate : h.flag.testBit 1 ∧ h.cab ≤ P.MAXPM := ⟨hflag, hcab⟩
  constructor
  · intro hdrop
    unfold appendStep
    rw [if_pos hgate]
    show ((appendHitBranch P (h.t + (adjustedOffset tLast qLast pmtLast acc.2 h).1) h
      { acc.1 with nTotalHits := acc.1.nTotalHits + 1 }).vTISKZ = acc.1.vTISKZ ∧ _ ∧ _)
    unfold appendHitBranch
    rw [if_pos hdrop]
    exact ⟨rfl, rfl, rfl⟩
  · intro hkeep
    unfold appendStep
    rw [if_pos hgate]
    show ((appendHitBranch P (h.t + (adjustedOffset tLast qLast pmtLast acc.2 h).1) h
      { acc.1 with nTotalHits := acc.1.nTotalHits + 1 }).vTISKZ = _ ∧ _ ∧ _)
    unfold appendHitBranch
    rw [if_neg (not_lt.mpr hkeep)]
    obtain ⟨hsf1, hsf2, _, hsf4⟩ := appendSignalFlag_fields P
      (h.t + (adjustedOffset tLast qLast pmtLast acc.2 h).1) h.cab
      { acc.1 with
        nTotalHits := acc.1.nTotalHits + 1,
        vTISKZ := acc.1.vTISKZ ++ [h.t + (adjustedOffset tLast qLast pmtLast acc.2 h).1],
        vQISKZ := acc.1.vQISKZ ++ [h.q],
        vCABIZ := acc.1.vCABIZ ++ [h.cab],
        vPMTHitTime := Function.update acc.1.vPMTHitTime h.cab
          (h.t + (adjustedOffset tLast qLast pmtLast acc.2 h).1) }
    exact ⟨hsf1, hsf2, hsf4⟩

/-- C10 witness: starting from the cleared event state, two in-gate hits on
PMT 5 only 100 ns apart with a 6 microsecond deadtime width; the invariant
holds before and after the call. -/
theorem AppendRawHitInfo_deadtime_filter_witness :
    deadtimeInv ((6 : ℚ) * 1000)
      (RawHitState.mk [] [] [] [] (fun _ => 0) 0 0 0 0) ∧
    (deadtimeInv (((RawHitParams.mk 11146 6 none).TRBNWIDTH) * 1000)
      (AppendRawHitInfo (RawHitParams.mk 11146 6 none)
        (RawHitState.mk [] [] [] [] (fun _ => 0) 0 0 0 0)
        [RawHit.mk 100 1 5 2, RawHit.mk 200 2 5 2]) ∧
     ∀ (tLast qLast : ℚ) (pmtLast : ℤ) (acc : RawHitState × ℚ × Bool) (h : RawHit),
      h.flag.testBit 1 = true → h.cab ≤ (RawHitParams.mk 11146 6 none).MAXPM →
      ((|h.t + (adjustedOffset tLast qLast pmtLast acc.2 h).1 - acc.1.vPMTHitTime h.cab| <
          (RawHitParams.mk 11146 6 none).TRBNWIDTH * 1000 →
        (appendStep (RawHitParams.mk 11146 6 none) tLast qLast pmtLast acc h).1.vTISKZ =
          acc.1.vTISKZ ∧
        (appendStep (RawHitParams.mk 11146 6 none) tLast qLast pmtLast acc h).1.vCABIZ =
          acc.1.vCABIZ ∧
        (appendStep (RawHitParams.mk 11146 6 none) tLast qLast pmtLast acc
          h).1.nRemovedHits = acc.1.nRemovedHits + 1) ∧
       ((RawHitParams.mk 11146 6 none).TRBNWIDTH * 1000 ≤
          |h.t + (adjustedOffset tLast qLast pmtLast acc.2 h).1 - acc.1.vPMTHitTime h.cab| →
        (appendStep (RawHitParams.mk 11146 6 none) tLast qLast pmtLast acc h).1.vTISKZ =
          acc.1.vTISKZ ++ [h.t + (adjustedOffset tLast qLast pmtLast acc.2 h).1] ∧
        (appendStep (RawHitParams.mk 11146 6 none) tLast qLast pmtLast acc h).1.vCABIZ =
          acc.1.vCABIZ ++ [h.cab] ∧
        (appendStep (RawHitParams.mk 11146 6 none) tLast qLast pmtLast acc
          h).1.nRemovedHits = acc.1.nRemovedHits))) :=
  have hp : deadtimeInv ((6 : ℚ) * 1000)
      (RawHitState.mk [] [] [] [] (fun _ => 0) 0 0 0 0) := by
    refine ⟨rfl, fun p => ⟨List.chain'_nil, fun tl htl => ?_⟩⟩
    simp [hitTimesOnPMT] at htl
  ⟨hp, AppendRawHitInfo_deadtime_filter (RawHitParams.mk 11146 6 none)
    (RawHitState.mk [] [] [] [] (fun _ => 0) 0 0 0 0)
    [RawHit.mk 100 1 5 2, RawHit.mk 200 2 5 2] hp⟩

end NTag
